import Mathlib

/-!
Verification of the gitrecon intelligence-aggregation core.

Shallow embedding of:
 - `src/core/smartScanner.js` (email classification, repository priority
   scoring and filtering, API-budget planning),
 - `src/services/github/githubApi.js` (the paginated collectors
   `getRepositories` and `getEmails`),
 - the GitHub recon orchestrator (`runGithubRecon`, `mergeEmailMaps`,
   `updateResultEmails`).

JavaScript `Map`/`Set` values are embedded as association lists / duplicate-free
insertion-ordered lists, machine timestamps as naturals (milliseconds), and the
floating-point priority score as a real number (the only transcendental
operation, `Math.log10`, becomes `Real.logb 10`).  `String.prototype.toLowerCase`
is modelled for the ASCII range, which covers every pattern constant in the
source.
-/

/-! ## Strings: lowering, splitting, substring search -/

/-- ASCII case lowering of a single character, modelling what
`String.prototype.toLowerCase` does on the ASCII range (the only range the
source's pattern constants exercise). -/
def asciiLower (c : Char) : Char :=
  if 'A' ≤ c ∧ c ≤ 'Z' then Char.ofNat (c.toNat + 32) else c

/-- Lowercase a character list. -/
def lowerChars (l : List Char) : List Char :=
  l.map asciiLower

/-- Lowercase a string (model of `s.toLowerCase()` for ASCII data). -/
def lowerStr (s : String) : String :=
  String.mk (lowerChars s.toList)

/-- Model of JavaScript `email.split('@')` over character lists: the list of
maximal separator-free segments.  Always returns at least one segment, and
returns `count c l + 1` segments in total, exactly like `String.prototype.split`
with a single-character separator. -/
def splitOnChar (c : Char) : List Char → List (List Char)
  | [] => [[]]
  | x :: xs =>
    match splitOnChar c xs with
    | [] => [[]]
    | y :: ys => if x = c then [] :: y :: ys else (x :: y) :: ys

/-- Does `l` start with `p`? -/
def beginsWith : List Char → List Char → Bool
  | _, [] => true
  | [], _ :: _ => false
  | x :: xs, y :: ys => x = y && beginsWith xs ys

/-- Does `l` contain `p` as a contiguous run?  Models an unanchored regular
expression made of literal characters (e.g. `/noreply@/`). -/
def hasSub : List Char → List Char → Bool
  | [], p => beginsWith [] p
  | x :: xs, p => beginsWith (x :: xs) p || hasSub xs p

/-- Does `l` end with `s`? -/
def finishesWith (l s : List Char) : Bool :=
  beginsWith l.reverse s.reverse

/-- JavaScript `.` in a regular expression matches everything except the four
line terminators. -/
def isDotChar (c : Char) : Bool :=
  c ≠ '\n' && c ≠ '\r' && c ≠ Char.ofNat 0x2028 && c ≠ Char.ofNat 0x2029

/-- Model of the anchored pattern `^.+@…$`: the subject ends with the literal
suffix and has at least one `.`-matchable character before it. -/
def matchesAnchored (l suffix : List Char) : Bool :=
  finishesWith l suffix && decide (suffix.length < l.length)
    && (l.take (l.length - suffix.length)).all isDotChar

/-! ## SmartScanner: email classification (`smartScanner.js`, `classifyEmail`) -/

/-- The `emailPatterns.noreply` rule table of `SmartScanner`, applied to the
raw email with the `/i` flag: we lowercase the subject and match the lowercase
literals.  The four unanchored patterns are substring tests; the two
`^.+@users.noreply.…$` patterns are anchored. -/
def noreplyPatternMatch (email : String) : Bool :=
  let l := lowerChars email.toList
  hasSub l "noreply@".toList
    || hasSub l "no-reply@".toList
    || hasSub l "donotreply@".toList
    || matchesAnchored l "@users.noreply.github.com".toList
    || matchesAnchored l "@users.noreply.gitlab.com".toList
    || hasSub l "notifications@github.com".toList

/-- The `emailPatterns.disposable` domain list of `SmartScanner`. -/
def disposableDomains : List String :=
  ["tempmail.org", "guerrillamail.com", "mailinator.com", "10minutemail.com",
   "throwaway.email", "temp-mail.org", "fakeinbox.com", "getnada.com",
   "maildrop.cc", "dispostable.com", "yopmail.com", "trashmail.com",
   "sharklasers.com", "guerrillamail.info", "grr.la"]

/-- The `commonPersonalDomains` list inside `classifyEmail`. -/
def commonPersonalDomains : List String :=
  ["gmail.com", "yahoo.com", "hotmail.com", "outlook.com",
   "live.com", "icloud.com", "protonmail.com", "mail.com"]

/-- The record built by `SmartScanner.classifyEmail`. -/
structure EmailClassification where
  email : String
  isValid : Bool
  isNoreply : Bool
  isDisposable : Bool
  domain : Option String
  classification : String
  deriving Repr, DecidableEq

/-- `SmartScanner.classifyEmail`: split on `'@'`; anything other than exactly
two parts is invalid (and keeps the initial `'personal'` classification and a
null domain, as in the source); otherwise the noreply patterns, the disposable
domain set and the personal-webmail set are consulted in that order, defaulting
to `'work'`. -/
def classifyEmail (email : String) : EmailClassification :=
  match splitOnChar '@' email.toList with
  | [_, domainChars] =>
    let domain := String.mk (lowerChars domainChars)
    if noreplyPatternMatch email then
      { email := email, isValid := true, isNoreply := true, isDisposable := false,
        domain := some domain, classification := "noreply" }
    else if disposableDomains.contains domain then
      { email := email, isValid := true, isNoreply := false, isDisposable := true,
        domain := some domain, classification := "disposable" }
    else if commonPersonalDomains.contains domain then
      { email := email, isValid := true, isNoreply := false, isDisposable := false,
        domain := some domain, classification := "personal" }
    else
      { email := email, isValid := true, isNoreply := false, isDisposable := false,
        domain := some domain, classification := "work" }
  | _ =>
    { email := email, isValid := false, isNoreply := false, isDisposable := false,
      domain := none, classification := "personal" }

/-! ## SmartScanner: repository priority scoring and filtering -/

/-- The scoring/filtering attributes of a repository record, as consumed by
`calculateRepoPriority` and `filterRepos` (timestamps in milliseconds;
`pushed_at`/`description` nullable as in the GitHub payload). -/
structure Repo where
  name : String
  fork : Bool
  archived : Bool
  pushed_at : Option Nat
  stargazers_count : Nat
  has_issues : Bool
  description : Option String
  deriving Repr, DecidableEq

/-- The `priorityWeights` configuration constants of `SmartScanner`. -/
structure PriorityWeights where
  recentActivity : ℝ
  hasDescription : ℝ
  notFork : ℝ
  starCount : ℝ
  hasIssues : ℝ
  notArchived : ℝ

/-- Weight values from the `SmartScanner` constructor. -/
def priorityWeights : PriorityWeights :=
  { recentActivity := 30, hasDescription := 5, notFork := 20,
    starCount := 10, hasIssues := 5, notArchived := 15 }

/-- JavaScript truthiness of `repo.description`: non-null and non-empty. -/
def hasDescription (r : Repo) : Bool :=
  match r.description with
  | some d => !(d == "")
  | none => false

/-- The recent-activity term of `calculateRepoPriority`: tiered by
`monthsAgo = (now - pushed_at) / (1000*60*60*24*30)`, in months of 30 days. -/
noncomputable def recencyScore (now : Nat) (r : Repo) : ℝ :=
  match r.pushed_at with
  | none => 0
  | some p =>
    let monthsAgo : ℝ := ((now : ℝ) - (p : ℝ)) / (1000 * 60 * 60 * 24 * 30)
    if monthsAgo < 1 then priorityWeights.recentActivity
    else if monthsAgo < 6 then priorityWeights.recentActivity * 0.7
    else if monthsAgo < 12 then priorityWeights.recentActivity * 0.3
    else 0

/-- The star term of `calculateRepoPriority`: log-scaled and capped at the raw
star weight, `Math.min(Math.log10(stars + 1) * 5, 10)`, only awarded to
repositories with at least one star. -/
noncomputable def starScore (r : Repo) : ℝ :=
  if r.stargazers_count > 0 then
    min (Real.logb 10 ((r.stargazers_count : ℝ) + 1) * 5) priorityWeights.starCount
  else 0

/-- `SmartScanner.calculateRepoPriority`: the sum of the recency tier, the flat
description / non-fork / non-archived / has-issues bonuses and the capped star
term, accumulated in source order. -/
noncomputable def calculateRepoPriority (now : Nat) (r : Repo) : ℝ :=
  recencyScore now r
    + (if hasDescription r then priorityWeights.hasDescription else 0)
    + (if !r.fork then priorityWeights.notFork else 0)
    + starScore r
    + (if !r.archived then priorityWeights.notArchived else 0)
    + (if r.has_issues then priorityWeights.hasIssues else 0)

/-- The comparator `(a, b) => b.priority - a.priority` used by
`sortReposByPriority`: `a` may precede `b` iff `a`'s priority is at least
`b`'s. -/
noncomputable def repoLe (now : Nat) (a b : Repo) : Bool :=
  decide (calculateRepoPriority now b ≤ calculateRepoPriority now a)

/-- `SmartScanner.sortReposByPriority`: a stable descending sort by priority
(JavaScript `Array.prototype.sort` is stable; the attached `priority` field is
a pure function of the repository, recomputed on demand here). -/
noncomputable def sortReposByPriority (now : Nat) (repos : List Repo) : List Repo :=
  repos.mergeSort (repoLe now)

/-- The options object of `SmartScanner.filterRepos`, with its default values
(`maxAge` in months, `none` embedding JavaScript `null`). -/
structure FilterOptions where
  includeForks : Bool := false
  includeArchived : Bool := false
  minStars : Nat := 0
  maxAge : Option Nat := none
  maxRepos : Option Nat := none
  deriving Repr, DecidableEq

/-- Milliseconds in the 30-day month used by the scanner's age arithmetic. -/
def msPerMonth : Nat := 1000 * 60 * 60 * 24 * 30

/-- The hard exclusion predicate of `filterRepos`, testing in source order:
forks, archived, star minimum, push age.  The age test runs only when `maxAge`
is truthy (non-null and non-zero) and `pushed_at` is present; the comparison
`monthsAgo > maxAge` is stated multiplied out over naturals (exact, since the
divisor is positive and a future `pushed_at` makes `monthsAgo` negative in the
source and `now - p = 0` here, both failing the test). -/
def repoPassesFilter (opts : FilterOptions) (now : Nat) (r : Repo) : Bool :=
  if !opts.includeForks && r.fork then false
  else if !opts.includeArchived && r.archived then false
  else if r.stargazers_count < opts.minStars then false
  else
    match opts.maxAge, r.pushed_at with
    | some ma, some p => !(ma != 0 && now - p > ma * msPerMonth)
    | _, _ => true

/-- `SmartScanner.filterRepos`: hard predicates first, then the priority sort,
then truncation — which the source applies only when `maxRepos` is truthy
(non-null and non-zero) and the sorted list is strictly longer. -/
noncomputable def filterRepos (opts : FilterOptions) (now : Nat) (repos : List Repo) : List Repo :=
  let filtered := repos.filter (repoPassesFilter opts now)
  let sorted := sortReposByPriority now filtered
  match opts.maxRepos with
  | some m => if m != 0 && sorted.length > m then sorted.take m else sorted
  | none => sorted

/-! ## SmartScanner: API budget planner -/

/-- The options object of `estimateApiCalls`, with its default values. -/
structure EstimateOptions where
  fetchProfile : Bool := true
  fetchOrgs : Bool := true
  fetchKeys : Bool := true
  fetchGists : Bool := false
  avgCommitsPerRepo : Nat := 50
  deriving Repr, DecidableEq

/-- `SmartScanner.estimateApiCalls`: one call per enabled metadata fetch, plus
`Math.ceil(repoCount / 100)` listing pages, plus
`repoCount * Math.ceil(avgCommitsPerRepo / 100)` commit pages
(`Math.ceil (n / 100) = (n + 99) / 100` on naturals). -/
def estimateApiCalls (repoCount : Nat) (opts : EstimateOptions) : Nat :=
  (if opts.fetchProfile then 1 else 0)
    + (if opts.fetchOrgs then 1 else 0)
    + (if opts.fetchKeys then 1 else 0)
    + (if opts.fetchGists then 1 else 0)
    + (repoCount + 99) / 100
    + repoCount * ((opts.avgCommitsPerRepo + 99) / 100)

/-- One advisory recommendation emitted by `generateScanStrategy`. -/
structure Recommendation where
  type : String
  message : String
  value : Option Int := none
  deriving Repr, DecidableEq

/-- The strategy object returned by `generateScanStrategy`. -/
structure ScanStrategy where
  canComplete : Bool
  estimatedCalls : Nat
  rateLimitRemaining : Nat
  recommendations : List Recommendation
  deriving Repr, DecidableEq

/-- `SmartScanner.generateScanStrategy`: `canComplete` iff the estimate fits
the remaining quota; otherwise the safe repository count is
`Math.floor((remaining - 10) / estimateApiCalls(1, options))` (signed floor
division, `Int.fdiv`) and the three advisories are pushed in source order. -/
def generateScanStrategy (repoCount rateLimitRemaining : Nat)
    (opts : EstimateOptions) : ScanStrategy :=
  let estimatedCalls := estimateApiCalls repoCount opts
  let callsPerRepo := estimateApiCalls 1 opts
  let safeRepoCount : Int := ((rateLimitRemaining : Int) - 10).fdiv (callsPerRepo : Int)
  { canComplete := decide (estimatedCalls ≤ rateLimitRemaining)
    estimatedCalls := estimatedCalls
    rateLimitRemaining := rateLimitRemaining
    recommendations :=
      if estimatedCalls ≤ rateLimitRemaining then []
      else
        [{ type := "limit_repos",
           message := "Recommend limiting scan to " ++ toString safeRepoCount
             ++ " repositories",
           value := some safeRepoCount },
         { type := "use_token",
           message := "Use a GitHub token to increase rate limit to 5000/hour" },
         { type := "skip_forks",
           message := "Skip forked repositories to reduce API calls" }] }

/-! ## Paginated collectors (`githubApi.js`) -/

/-- The tagged outcome of one page fetch, decided at the transport boundary:
the source inspects `message`/`error` fields and `Array.isArray`; every
non-`items` outcome makes the collection loop stop with what it has. -/
inductive PageResult (α : Type) where
  | items (l : List α)
  | rateLimited
  | notFound
  | transientError (msg : String)

/-- The fields of a raw repository page item read by `getRepositories`. -/
structure RawRepo where
  name : String
  fork : Bool
  deriving Repr, DecidableEq

/-- A collected repository entry. Modelled from the spec: the
`Repository(name, fork)` constructor imported from `config/settings` is not
under `src/`; per the spec's `RepositoryDescriptor` it records the identity
`name` and the `isFork` attribute it is applied to. -/
structure RepoEntry where
  name : String
  fork : Bool
  deriving Repr, DecidableEq

/-- The `Repository(repoName, repository.fork)` constructor call. -/
def Repository (name : String) (fork : Bool) : RepoEntry :=
  ⟨name, fork⟩

/-- The inner `for` loop of `getRepositories` over one page: stop with
`continueLoop = false` at the first item whose name was already seen,
otherwise push `Repository(name, fork)` and record the name. -/
def processRepoItems : List RawRepo → List String → List RepoEntry →
    List String × List RepoEntry × Bool
  | [], seen, acc => (seen, acc, true)
  | r :: rest, seen, acc =>
    if r.name ∈ seen then (seen, acc, false)
    else processRepoItems rest (r.name :: seen) (acc ++ [Repository r.name r.fork])

/-- The `while (true)` loop of `getRepositories`, with the page-fetch function
abstracted as `pages : Nat → PageResult RawRepo` and explicit fuel (the source
loop terminates only through its stop conditions).  Returns the collected
entries and the number of pages fetched.  Any error-shaped result breaks the
loop and returns what was accumulated. -/
def getRepositoriesLoop (pages : Nat → PageResult RawRepo) :
    Nat → Nat → List String → List RepoEntry → Nat → List RepoEntry × Nat
  | 0, _, _, acc, fetches => (acc, fetches)
  | fuel + 1, page, seen, acc, fetches =>
    match pages page with
    | PageResult.items result =>
      match processRepoItems result seen acc with
      | (seen2, acc2, cont) =>
        if cont && result.length == 100 then
          getRepositoriesLoop pages fuel (page + 1) seen2 acc2 (fetches + 1)
        else (acc2, fetches + 1)
    | _ => (acc, fetches + 1)

/-- `getRepositories`: the paginated walk starts at page 1 with empty seen-set
and accumulator. -/
def getRepositoriesCollect (pages : Nat → PageResult RawRepo) (fuel : Nat) :
    List RepoEntry × Nat :=
  getRepositoriesLoop pages fuel 1 [] [] 0

/-- A git identity (`commit.commit.author` / `commit.commit.committer`); the
empty string embeds a missing/empty email, matching the source's truthiness
test `if (authorEmail)`. -/
structure GitIdent where
  name : String
  email : String
  deriving Repr, DecidableEq

/-- The platform account a commit is attributed to (`commit.author`),
nullable. -/
structure CommitAccount where
  login : String
  deriving Repr, DecidableEq

/-- The git-level part of a commit (`commit.commit`). -/
structure CommitData where
  author : GitIdent
  committer : GitIdent
  deriving Repr, DecidableEq

/-- A commit page item as read by `getEmails`. -/
structure Commit where
  sha : String
  author : Option CommitAccount
  commit : CommitData
  deriving Repr, DecidableEq

/-- An email-to-names map (`Map<string, Set<string>>`): an insertion-ordered
association list whose value lists are duplicate-free and insertion-ordered. -/
abbrev EmailMap := List (String × List String)

/-- `map.get(k).add(v)` with creation of a missing entry, as in the pervasive
`if (!m.has(k)) m.set(k, new Set()); m.get(k).add(v)` idiom: a new key is
appended at the end (JavaScript `Map` insertion order), and adding an element
already in the set leaves it unchanged. -/
def addToEntry (k v : String) : EmailMap → EmailMap
  | [] => [(k, [v])]
  | (k2, vs) :: rest =>
    if k = k2 then (k2, if v ∈ vs then vs else vs ++ [v]) :: rest
    else (k2, vs) :: addToEntry k v rest

/-- `m.set(k, new Set())` guarded by `!m.has(k)`: ensure a key exists, binding
it to the empty set when absent. -/
def ensureKey (k : String) : EmailMap → EmailMap
  | [] => [(k, [])]
  | (k2, vs) :: rest =>
    if k = k2 then (k2, vs) :: rest
    else (k2, vs) :: ensureKey k rest

/-- The inner `for` loop of `getEmails` over one commit page: stop at a seen
sha; otherwise record the sha, skip commits without a platform `author`, and
for commits whose author login equals the scanned username case-insensitively
record the git author and git committer (email, name) pairs (each guarded by
email truthiness). -/
def processCommits (username : String) : List Commit → List String → EmailMap →
    List String × EmailMap × Bool
  | [], seen, emails => (seen, emails, true)
  | c :: rest, seen, emails =>
    if c.sha ∈ seen then (seen, emails, false)
    else
      let seen2 := c.sha :: seen
      match c.author with
      | none => processCommits username rest seen2 emails
      | some a =>
        if lowerStr a.login = lowerStr username then
          let e1 := if c.commit.author.email ≠ "" then
              addToEntry c.commit.author.email c.commit.author.name emails
            else emails
          let e2 := if c.commit.committer.email ≠ "" then
              addToEntry c.commit.committer.email c.commit.committer.name e1
            else e1
          processCommits username rest seen2 e2
        else processCommits username rest seen2 emails

/-- The `while (true)` loop of `getEmails`, page-fetch function abstracted and
fuelled like `getRepositoriesLoop`; every error-shaped page and every stop
condition returns the accumulated email map. -/
def getEmailsLoop (username : String) (pages : Nat → PageResult Commit) :
    Nat → Nat → List String → EmailMap → EmailMap
  | 0, _, _, emails => emails
  | fuel + 1, page, seen, emails =>
    match pages page with
    | PageResult.items result =>
      match processCommits username result seen emails with
      | (seen2, emails2, cont) =>
        if cont && result.length == 100 then
          getEmailsLoop username pages fuel (page + 1) seen2 emails2
        else emails2
    | _ => emails

/-- `getEmails`: the commit walk starts at page 1 with empty seen-set and
email map. -/
def getEmailsCollect (username : String) (pages : Nat → PageResult Commit)
    (fuel : Nat) : EmailMap :=
  getEmailsLoop username pages fuel 1 [] []

/-! ## Identity aggregation (`runGithubRecon`, `mergeEmailMaps`,
`updateResultEmails`) -/

/-- The three observation maps accumulated by `runGithubRecon`. -/
structure ObsState where
  emailsToName : EmailMap
  emailsToRepo : EmailMap
  emailSources : EmailMap
  deriving Repr, DecidableEq

/-- One `(email, names)` entry produced by scanning one repository's commits,
together with that repository's name. -/
structure Observation where
  email : String
  names : List String
  repo : String
  deriving Repr, DecidableEq

/-- `names.forEach(name => emailsToName.get(email).add(name))` preceded by the
`if (!emailsToName.has(email)) emailsToName.set(email, new Set())` guard. -/
def addNames (k : String) (names : List String) (m : EmailMap) : EmailMap :=
  names.foldl (fun acc n => addToEntry k n acc) (ensureKey k m)

/-- The body of the commit-email loop of `runGithubRecon` for one `(email,
names)` pair of repository `o.repo`: when the skip flag (`skipNoreply ||
smart`) is set, a noreply-classified email is skipped before touching any map;
otherwise the repository, the `'commit'` provenance tag and the names are
folded into the three maps. -/
def collectStep (skipFlag : Bool) (st : ObsState) (o : Observation) : ObsState :=
  if skipFlag && (classifyEmail o.email).isNoreply then st
  else
    { emailsToName := addNames o.email o.names st.emailsToName
      emailsToRepo := addToEntry o.email o.repo st.emailsToRepo
      emailSources := addToEntry o.email "commit" st.emailSources }

/-- The observation fold of `runGithubRecon` over a sequence of commit-email
observations. -/
def collectObservations (skipFlag : Bool) (obs : List Observation)
    (st : ObsState) : ObsState :=
  obs.foldl (collectStep skipFlag) st

/-- A single `(email, displayName, sourceTag, repoName)` observation tuple. -/
structure IdObservation where
  email : String
  name : String
  source : String
  repo : String
  deriving Repr, DecidableEq

/-- Folding one observation tuple into the aggregate: the per-email updates
`runGithubRecon` performs for each discovered name, with the provenance tag
generalized over the source channels (`'commit'`, `'event'`, `'readme'`, …). -/
def mergeObservation (st : ObsState) (o : IdObservation) : ObsState :=
  { emailsToName := addToEntry o.email o.name st.emailsToName
    emailsToRepo := addToEntry o.email o.repo st.emailsToRepo
    emailSources := addToEntry o.email o.source st.emailSources }

/-- `mergeEmailMaps(target, source)`: fold every entry of `source` into
`target`, creating missing entries and unioning the name sets. -/
def mergeEmailMaps (target source : EmailMap) : EmailMap :=
  source.foldl (fun t p => addNames p.1 p.2 t) target

/-- One entry of the externally-visible `email_details` report list. -/
structure EmailDetail where
  email : String
  names : List String
  classification : String
  domain : Option String
  is_disposable : Bool
  sources : List String
  repositories : List String
  deriving Repr, DecidableEq

/-- `Array.from(m.get(k) || [])`. -/
def lookupList (m : EmailMap) (k : String) : List String :=
  (List.lookup k m).getD []

/-- `updateResultEmails`: project the observation maps into
`(leaked_emails, email_details)`, walking `emailsToName` in insertion order and
dropping an entry only when `filterNoreply` is set and the email classifies as
noreply.  (The map being recursed on is the last argument.) -/
def updateResultEmails (emailsToRepo emailSources : EmailMap)
    (filterNoreply : Bool) : EmailMap → List String × List EmailDetail
  | [] => ([], [])
  | (email, names) :: rest =>
    let c := classifyEmail email
    let r := updateResultEmails emailsToRepo emailSources filterNoreply rest
    if filterNoreply && c.isNoreply then r
    else
      (email :: r.1,
       { email := email, names := names, classification := c.classification,
         domain := c.domain, is_disposable := c.isDisposable,
         sources := lookupList emailSources email,
         repositories := lookupList emailsToRepo email } :: r.2)

/-- The enriched record built by `SmartScanner.deduplicateEmails`. -/
structure EnrichedEmail where
  email : String
  names : List String
  classification : String
  domain : Option String
  isDisposable : Bool
  deriving Repr, DecidableEq

/-- `SmartScanner.deduplicateEmails`: walk the email map, skip entries that
classify as invalid or noreply, and key the surviving enriched records by
email. -/
def deduplicateEmails : EmailMap → List (String × EnrichedEmail)
  | [] => []
  | (email, names) :: rest =>
    let c := classifyEmail email
    if !c.isValid || c.isNoreply then deduplicateEmails rest
    else
      (email,
       { email := email, names := names, classification := c.classification,
         domain := c.domain, isDisposable := c.isDisposable })
        :: deduplicateEmails rest

/-! ## Concrete fixtures used by examples, witnesses and counterexamples -/

/-- `n` raw repositories with distinct numeric names starting at `start`. -/
def mkRawRepos (start n : Nat) : List RawRepo :=
  (List.range n).map (fun i => { name := toString (start + i), fork := false })

/-- Page-fetch fixture for the 100-then-47 pagination example. -/
def pagesEx1 : Nat → PageResult RawRepo := fun p =>
  if p = 1 then PageResult.items (mkRawRepos 0 100)
  else if p = 2 then PageResult.items (mkRawRepos 100 47)
  else PageResult.items []

/-- Page-fetch fixture for the duplicate-sentinel example: page 2 starts with
an item whose name already appeared on page 1. -/
def pagesEx2 : Nat → PageResult RawRepo := fun p =>
  if p = 1 then PageResult.items (mkRawRepos 0 100)
  else if p = 2 then
    PageResult.items ({ name := "0", fork := false } :: mkRawRepos 200 46)
  else PageResult.items []

/-- A commit with no platform author account. -/
def commitNoAuthor : Commit :=
  { sha := "x", author := none,
    commit := { author := { name := "A", email := "a@example.com" },
                committer := { name := "A", email := "a@example.com" } } }

/-- A commit with the same sha as `commitNoAuthor`, attributed to the scanned
user, carrying email addresses. -/
def commitSameShaAuthored : Commit :=
  { sha := "x", author := some { login := "user" },
    commit := { author := { name := "U", email := "u@example.com" },
                committer := { name := "U", email := "u@example.com" } } }

/-- A commit attributed to a different account, carrying email addresses. -/
def commitOtherAccount : Commit :=
  { sha := "y", author := some { login := "other" },
    commit := { author := { name := "O", email := "o@example.com" },
                committer := { name := "O", email := "o@example.com" } } }

/-- A plain repository that passes every default hard predicate. -/
def repoPlain : Repo :=
  { name := "r", fork := false, archived := false, pushed_at := none,
    stargazers_count := 0, has_issues := false, description := none }

/-- A second plain repository, to exercise the truncation cap. -/
def repoPlain2 : Repo :=
  { name := "r2", fork := false, archived := false, pushed_at := none,
    stargazers_count := 0, has_issues := false, description := none }

/-- Filter options with a repository cap of 1. -/
def optsCap1 : FilterOptions := { maxRepos := some 1 }

/-- Filter options with a repository cap of 0 (falsy in the source). -/
def optsCap0 : FilterOptions := { maxRepos := some 0 }

/-- A repository pushed at t=100 ms, for the score-monotonicity witness. -/
def repoRecent : Repo :=
  { name := "a", fork := false, archived := false, pushed_at := some 100,
    stargazers_count := 1, has_issues := true, description := some "d" }

/-- The same repository pushed earlier, at t=50 ms. -/
def repoStale : Repo :=
  { name := "a", fork := false, archived := false, pushed_at := some 50,
    stargazers_count := 1, has_issues := true, description := some "d" }

/-! # Theorems -/

/-! ## Splitting lemmas -/

/-- `splitOnChar` always yields at least one segment. -/
theorem splitOnChar_ne_nil (c : Char) (l : List Char) : splitOnChar c l ≠ [] := by
  cases l with
  | nil => simp [splitOnChar]
  | cons x xs =>
    simp only [splitOnChar]
    cases h : splitOnChar c xs with
    | nil => simp
    | cons y ys => by_cases hx : x = c <;> simp [hx]

/-- `splitOnChar` yields one more segment than there are separators, exactly
like `String.prototype.split` with a one-character separator. -/
theorem length_splitOnChar (c : Char) (l : List Char) :
    (splitOnChar c l).length = l.count c + 1 := by
  induction l with
  | nil => simp [splitOnChar]
  | cons x xs ih =>
    simp only [splitOnChar]
    cases h : splitOnChar c xs with
    | nil => exact absurd h (splitOnChar_ne_nil c xs)
    | cons y ys =>
      rw [h] at ih
      simp only [List.length_cons] at ih
      by_cases hx : x = c <;>
        simp [hx, List.count_cons, List.length_cons] <;> omega

/-- A string with exactly one separator splits into exactly two segments. -/
theorem splitOnChar_pair (c : Char) (l : List Char) (h : l.count c = 1) :
    ∃ a b, splitOnChar c l = [a, b] := by
  have hlen := length_splitOnChar c l
  rw [h] at hlen
  rcases h2 : splitOnChar c l with _ | ⟨a, rest⟩
  · exact absurd h2 (splitOnChar_ne_nil c l)
  · rcases rest with _ | ⟨b, rest2⟩
    · rw [h2] at hlen; simp at hlen
    · rcases rest2 with _ | ⟨d, tl⟩
      · exact ⟨a, b, by simp [h2]⟩
      · rw [h2] at hlen; simp at hlen

/-- C7: `classifyEmail` evaluates its rules in fixed precedence with first
match winning: a string whose `'@'`-count is not exactly one is invalid;
otherwise a noreply pattern match classifies `noreply`, else a disposable
domain classifies `disposable`, else a personal-webmail domain classifies
`personal`, else `work`; and the four spec examples classify accordingly. -/
theorem classifyEmail_precedence :
    (∀ s : String, s.toList.count '@' ≠ 1 → (classifyEmail s).isValid = false)
    ∧ (∀ s : String, s.toList.count '@' = 1 →
        (classifyEmail s).isValid = true
        ∧ (classifyEmail s).isNoreply = noreplyPatternMatch s
        ∧ (noreplyPatternMatch s = true →
            (classifyEmail s).classification = "noreply")
        ∧ (noreplyPatternMatch s = false → ∀ d, (classifyEmail s).domain = some d →
            (d ∈ disposableDomains →
              (classifyEmail s).classification = "disposable"
                ∧ (classifyEmail s).isDisposable = true)
            ∧ (d ∉ disposableDomains → d ∈ commonPersonalDomains →
                (classifyEmail s).classification = "personal")
            ∧ (d ∉ disposableDomains → d ∉ commonPersonalDomains →
                (classifyEmail s).classification = "work")))
    ∧ (classifyEmail "noreply@domain.com").classification = "noreply"
    ∧ (classifyEmail "user@mailinator.com").classification = "disposable"
    ∧ (classifyEmail "user@gmail.com").classification = "personal"
    ∧ (classifyEmail "user@acme-corp.io").classification = "work" := by
  refine ⟨?_, ?_, by decide, by decide, by decide, by decide⟩
  · intro s h
    rcases h2 : splitOnChar '@' s.toList with _ | ⟨a, _ | ⟨b, _ | ⟨d, tl⟩⟩⟩
    · exact absurd h2 (splitOnChar_ne_nil _ _)
    · simp only [classifyEmail, h2]
    · have hlen := length_splitOnChar '@' s.toList
      rw [h2] at hlen
      simp only [List.length_cons, List.length_nil] at hlen
      omega
    · simp only [classifyEmail, h2]
  · intro s h
    obtain ⟨a, b, h2⟩ := splitOnChar_pair '@' s.toList h
    simp only [classifyEmail, h2]
    split_ifs with hn hd hp
    · refine ⟨rfl, hn.symm, fun _ => rfl, fun hf => ?_⟩
      rw [hn] at hf
      exact absurd hf (by simp)
    · have hd2 : String.mk (lowerChars b) ∈ disposableDomains := by simpa using hd
      refine ⟨rfl, by simpa using hn, fun ht => absurd ht hn, fun _ d hdom => ?_⟩
      cases hdom
      exact ⟨fun _ => ⟨rfl, rfl⟩, fun hnd _ => absurd hd2 hnd, fun hnd _ => absurd hd2 hnd⟩
    · have hd2 : String.mk (lowerChars b) ∉ disposableDomains := by simpa using hd
      have hp2 : String.mk (lowerChars b) ∈ commonPersonalDomains := by simpa using hp
      refine ⟨rfl, by simpa using hn, fun ht => absurd ht hn, fun _ d hdom => ?_⟩
      cases hdom
      exact ⟨fun hmem => absurd hmem hd2, fun _ _ => rfl, fun _ hnp => absurd hp2 hnp⟩
    · have hd2 : String.mk (lowerChars b) ∉ disposableDomains := by simpa using hd
      have hp2 : String.mk (lowerChars b) ∉ commonPersonalDomains := by simpa using hp
      refine ⟨rfl, by simpa using hn, fun ht => absurd ht hn, fun _ d hdom => ?_⟩
      cases hdom
      exact ⟨fun hmem => absurd hmem hd2, fun _ hmem => absurd hmem hp2, fun _ _ => rfl⟩

/-- Witness for C7: `"a@b@c"` has two `'@'` characters and is invalid. -/
theorem classifyEmail_precedence_witness :
    "a@b@c".toList.count '@' ≠ 1 ∧ (classifyEmail "a@b@c").isValid = false :=
  ⟨by decide, classifyEmail_precedence.1 "a@b@c" (by decide)⟩

/-- C5: `estimateApiCalls` sums one call per enabled metadata fetch plus
`ceil(repoCount/100)` listing pages plus `repoCount * ceil(avg/100)` commit
pages, giving 256 for 250 repositories at 50 commits each;
`generateScanStrategy` can complete iff the estimate fits the remaining quota,
and otherwise emits the `limit_repos` advisory with safe count
`floor((remaining - 10) / estimateApiCalls(1, opts))`, then the
higher-quota-credential and exclude-forks advisories, in that order. -/
theorem budget_planner_spec :
    estimateApiCalls 250 { avgCommitsPerRepo := 50 } = 256
    ∧ (∀ (repoCount remaining : Nat) (opts : EstimateOptions),
        (generateScanStrategy repoCount remaining opts).canComplete = true
          ↔ estimateApiCalls repoCount opts ≤ remaining)
    ∧ (∀ (repoCount remaining : Nat) (opts : EstimateOptions),
        ¬ estimateApiCalls repoCount opts ≤ remaining →
        (generateScanStrategy repoCount remaining opts).recommendations =
          [{ type := "limit_repos",
             message := "Recommend limiting scan to "
               ++ toString (((remaining : Int) - 10).fdiv (estimateApiCalls 1 opts : Int))
               ++ " repositories",
             value := some (((remaining : Int) - 10).fdiv (estimateApiCalls 1 opts : Int)) },
           { type := "use_token",
             message := "Use a GitHub token to increase rate limit to 5000/hour" },
           { type := "skip_forks",
             message := "Skip forked repositories to reduce API calls" }]) := by
  refine ⟨by decide, ?_, ?_⟩
  · intro rc rem opts
    simp [generateScanStrategy]
  · intro rc rem opts h
    simp [generateScanStrategy, h]

/-- Witness for C5: at 250 repositories and 100 remaining calls the estimate
(256) does not fit, and the three advisories are emitted with safe count
`floor(90 / 5) = 18`. -/
theorem budget_planner_spec_witness :
    ¬ estimateApiCalls 250 { avgCommitsPerRepo := 50 } ≤ 100
    ∧ (generateScanStrategy 250 100 { avgCommitsPerRepo := 50 }).recommendations =
      [{ type := "limit_repos",
         message := "Recommend limiting scan to "
           ++ toString (((100 : Int) - 10).fdiv
                (estimateApiCalls 1 { avgCommitsPerRepo := 50 } : Int))
           ++ " repositories",
         value := some (((100 : Int) - 10).fdiv
              (estimateApiCalls 1 { avgCommitsPerRepo := 50 } : Int)) },
       { type := "use_token",
         message := "Use a GitHub token to increase rate limit to 5000/hour" },
       { type := "skip_forks",
         message := "Skip forked repositories to reduce API calls" }] :=
  ⟨by decide, budget_planner_spec.2.2 250 100 { avgCommitsPerRepo := 50 } (by decide)⟩

/-- Adding the same element to the same key twice is the same as adding it
once: JavaScript `Set.add` is idempotent. -/
theorem addToEntry_idem (k v : String) (m : EmailMap) :
    addToEntry k v (addToEntry k v m) = addToEntry k v m := by
  induction m with
  | nil => simp [addToEntry]
  | cons p rest ih =>
    obtain ⟨k2, vs⟩ := p
    by_cases h : k = k2
    · subst h
      by_cases hv : v ∈ vs <;> simp [addToEntry, hv]
    · simp [addToEntry, h, ih]

/-- Looking up the key just written by `addToEntry`: a missing key is created
with the singleton set, an existing one is unioned with the new element. -/
theorem lookup_addToEntry_self (k v : String) (m : EmailMap) :
    List.lookup k (addToEntry k v m) =
      some (match List.lookup k m with
            | none => [v]
            | some vs => if v ∈ vs then vs else vs ++ [v]) := by
  induction m with
  | nil => simp [addToEntry, List.lookup]
  | cons p rest ih =>
    obtain ⟨k2, vs⟩ := p
    by_cases h : k = k2
    · subst h
      simp [addToEntry, List.lookup]
    · have hb : (k == k2) = false := by simp [h]
      simp [addToEntry, List.lookup, h, hb, ih]

/-- C9: folding the same `(email, displayName, sourceTag, repoName)`
observation into the aggregate twice leaves the `names`/`sources`/`repositories`
maps identical to folding it once; the identity entry is created with the
singleton name set on first sight and unioned thereafter. -/
theorem mergeObservation_idempotent :
    (∀ (st : ObsState) (o : IdObservation),
      mergeObservation (mergeObservation st o) o = mergeObservation st o)
    ∧ (∀ (st : ObsState) (o : IdObservation),
        List.lookup o.email st.emailsToName = none →
        List.lookup o.email (mergeObservation st o).emailsToName = some [o.name])
    ∧ (∀ (st : ObsState) (o : IdObservation) (vs : List String),
        List.lookup o.email st.emailsToName = some vs →
        List.lookup o.email (mergeObservation st o).emailsToName =
          some (if o.name ∈ vs then vs else vs ++ [o.name])) := by
  refine ⟨fun st o => ?_, fun st o h => ?_, fun st o vs h => ?_⟩
  · simp [mergeObservation, addToEntry_idem]
  · simp [mergeObservation, lookup_addToEntry_self, h]
  · simp [mergeObservation, lookup_addToEntry_self, h]

/-- Witness for C9: the first observation of `"a@b.c"` creates its entry with
the singleton name set. -/
theorem mergeObservation_idempotent_witness :
    List.lookup "a@b.c" (⟨[], [], []⟩ : ObsState).emailsToName = none
    ∧ List.lookup "a@b.c"
        (mergeObservation ⟨[], [], []⟩ ⟨"a@b.c", "N", "commit", "r"⟩).emailsToName
      = some ["N"] :=
  ⟨rfl, mergeObservation_idempotent.2.1 ⟨[], [], []⟩ ⟨"a@b.c", "N", "commit", "r"⟩ rfl⟩

/-- C1 (amended): only `SmartScanner.deduplicateEmails` excludes invalid
addresses — an email with not exactly one `'@'` never enters its enriched map.
The observation fold and the `updateResultEmails` report projection apply no
validity check (see the counterexample), so the invariant claimed for the
identity map and the reported list holds only for the `deduplicateEmails`
projection. -/
theorem deduplicateEmails_drops_invalid (m : EmailMap) (e : String)
    (h : (classifyEmail e).isValid = false) :
    List.lookup e (deduplicateEmails m) = none := by
  induction m with
  | nil => simp [deduplicateEmails]
  | cons p rest ih =>
    obtain ⟨email, names⟩ := p
    by_cases he : email = e
    · subst he
      simp only [deduplicateEmails, h, Bool.not_false, Bool.true_or, if_true]
      exact ih
    · by_cases hk : (!(classifyEmail email).isValid || (classifyEmail email).isNoreply) = true
      · simp only [deduplicateEmails, hk, if_true]
        exact ih
      · have hb : (e == email) = false := by simp [Ne.symm he]
        simp only [deduplicateEmails, hk, if_false, Bool.not_eq_true] at *
        simp [List.lookup, hk, hb, ih]

/-- Counterexample to C1 as stated: the invalid address `"foo"` (zero `'@'`)
placed in the observation map is reported by `updateResultEmails` in
`leaked_emails`, and the observation fold inserts it into the identity map in
the first place — malformed input is not short-circuited there. -/
theorem invalid_email_reported :
    (classifyEmail "foo").isValid = false
    ∧ (updateResultEmails [] [] true [("foo", ["N"])]).1 = ["foo"]
    ∧ (collectObservations false [⟨"foo", ["N"], "r"⟩] ⟨[], [], []⟩).emailsToName
        = [("foo", ["N"])] := by decide

/-- Witness for the amended C1: the invalid `"foo"` keyed in the input map is
absent from `deduplicateEmails`' output. -/
theorem deduplicateEmails_drops_invalid_witness :
    (classifyEmail "foo").isValid = false
    ∧ List.lookup "foo" (deduplicateEmails [("foo", ["N"])]) = none :=
  ⟨by decide, deduplicateEmails_drops_invalid [("foo", ["N"])] "foo" (by decide)⟩

/-- C2 (amended): exclusion is a view filter at projection time — projecting
with the noreply filter on equals the noreply-filtered projection of the same
untouched maps — but when `skipNoreply || smart` is set the orchestrator also
excludes noreply emails at collection time: the maps built with the skip flag
equal the maps built with no exclusion over the noreply-filtered observation
sequence, so such observations never enter the maps at all (see the
counterexample). -/
theorem exclusion_view_and_collection :
    (∀ (obs : List Observation) (st : ObsState),
      collectObservations true obs st =
        collectObservations false
          (obs.filter (fun o => !(classifyEmail o.email).isNoreply)) st)
    ∧ (∀ (emailsToRepo emailSources emailsToName : EmailMap),
        (updateResultEmails emailsToRepo emailSources true emailsToName).1 =
          (updateResultEmails emailsToRepo emailSources false emailsToName).1.filter
            (fun e => !(classifyEmail e).isNoreply)) := by
  constructor
  · intro obs
    induction obs with
    | nil => intro st; rfl
    | cons o rest ih =>
      intro st
      by_cases hn : (classifyEmail o.email).isNoreply = true
      · have hstep : collectStep true st o = st := by simp [collectStep, hn]
        have hfil : (o :: rest).filter (fun x => !(classifyEmail x.email).isNoreply)
            = rest.filter (fun x => !(classifyEmail x.email).isNoreply) := by
          simp [List.filter_cons, hn]
        show collectObservations true rest (collectStep true st o)
            = collectObservations false
                ((o :: rest).filter (fun x => !(classifyEmail x.email).isNoreply)) st
        rw [hfil, hstep]
        exact ih st
      · have hn2 : (classifyEmail o.email).isNoreply = false := by simpa using hn
        have hstep : collectStep true st o = collectStep false st o := by
          simp [collectStep, hn2]
        have hfil : (o :: rest).filter (fun x => !(classifyEmail x.email).isNoreply)
            = o :: rest.filter (fun x => !(classifyEmail x.email).isNoreply) := by
          simp [List.filter_cons, hn2]
        show collectObservations true rest (collectStep true st o)
            = collectObservations false
                ((o :: rest).filter (fun x => !(classifyEmail x.email).isNoreply)) st
        rw [hfil]
        show collectObservations true rest (collectStep true st o)
            = collectObservations false
                (rest.filter (fun x => !(classifyEmail x.email).isNoreply))
                (collectStep false st o)
        rw [hstep]
        exact ih _
  · intro emailsToRepo emailSources emailsToName
    induction emailsToName with
    | nil => rfl
    | cons p rest ih =>
      obtain ⟨email, names⟩ := p
      by_cases hn : (classifyEmail email).isNoreply = true
      · simp [updateResultEmails, hn, List.filter_cons, ih]
      · have hn2 : (classifyEmail email).isNoreply = false := by simpa using hn
        simp [updateResultEmails, hn2, List.filter_cons, ih]

/-- Counterexample to C2 as stated: with the skip flag set, a noreply
observation never enters `emailsToName`, so the underlying maps differ from
the ones built with no exclusion, and toggling the filter later cannot recover
it without re-collection. -/
theorem exclusion_at_collection_time :
    (collectObservations true [⟨"noreply@x.com", ["Bot"], "r"⟩] ⟨[], [], []⟩)
      ≠ collectObservations false [⟨"noreply@x.com", ["Bot"], "r"⟩] ⟨[], [], []⟩
    ∧ (collectObservations true [⟨"noreply@x.com", ["Bot"], "r"⟩]
        ⟨[], [], []⟩).emailsToName = []
    ∧ (collectObservations false [⟨"noreply@x.com", ["Bot"], "r"⟩]
        ⟨[], [], []⟩).emailsToName = [("noreply@x.com", ["Bot"])] := by decide

/-- C4 (amended): a commit without an author identity is skipped only after
key extraction: its sha is recorded in the seen set before the author check
(so only email harvesting is skipped for it), and any commit whose sha was
already seen — authorless or not — triggers the duplicate-sentinel stop. -/
theorem authorless_commit_records_sha :
    (∀ (username : String) (c : Commit) (rest : List Commit)
        (seen : List String) (emails : EmailMap),
      c.author = none → c.sha ∉ seen →
      processCommits username (c :: rest) seen emails =
        processCommits username rest (c.sha :: seen) emails)
    ∧ (∀ (username : String) (c : Commit) (rest : List Commit)
        (seen : List String) (emails : EmailMap),
      c.sha ∈ seen →
      processCommits username (c :: rest) seen emails = (seen, emails, false)) := by
  constructor
  · intro username c rest seen emails ha hs
    simp [processCommits, hs, ha]
  · intro username c rest seen emails hs
    simp [processCommits, hs]

/-- Counterexample to C4 as stated: the authorless commit `"x"` does
contribute its sha to the seen set, and the later authored commit with the
same sha triggers the duplicate-sentinel stop on account of it (the page stops
with no emails recorded). -/
theorem authorless_commit_triggers_sentinel :
    (processCommits "user" [commitNoAuthor] [] []).1 = ["x"]
    ∧ processCommits "user" [commitNoAuthor, commitSameShaAuthored] [] []
        = (["x"], [], false) := by decide

/-- Witness for the amended C4: processing the authorless commit records its
sha and leaves the email map untouched. -/
theorem authorless_commit_records_sha_witness :
    commitNoAuthor.author = none ∧ commitNoAuthor.sha ∉ ([] : List String)
    ∧ processCommits "user" [commitNoAuthor] [] [] =
        processCommits "user" [] ["x"] [] :=
  ⟨rfl, by decide,
   authorless_commit_records_sha.1 "user" commitNoAuthor [] [] [] rfl (by decide)⟩

/-- C10: the commit collector harvests identities only for commits whose
top-level author login equals the scanned username case-insensitively — a
mismatching commit contributes no emails even though addresses are present in
its data — and a matching commit records both the git author and the git
committer (email, name) pairs. -/
theorem commit_harvest_gated_by_login :
    (∀ (username : String) (c : Commit) (rest : List Commit)
        (seen : List String) (emails : EmailMap) (a : CommitAccount),
      c.author = some a → lowerStr a.login ≠ lowerStr username → c.sha ∉ seen →
      processCommits username (c :: rest) seen emails =
        processCommits username rest (c.sha :: seen) emails)
    ∧ (∀ (username : String) (c : Commit) (rest : List Commit)
        (seen : List String) (emails : EmailMap) (a : CommitAccount),
      c.author = some a → lowerStr a.login = lowerStr username → c.sha ∉ seen →
      c.commit.author.email ≠ "" → c.commit.committer.email ≠ "" →
      processCommits username (c :: rest) seen emails =
        processCommits username rest (c.sha :: seen)
          (addToEntry c.commit.committer.email c.commit.committer.name
            (addToEntry c.commit.author.email c.commit.author.name emails))) := by
  constructor
  · intro username c rest seen emails a ha hne hs
    simp [processCommits, hs, ha, hne]
  · intro username c rest seen emails a ha heq hs h1 h2
    simp [processCommits, hs, ha, heq, h1, h2]

/-- Witness for C10: a commit attributed to account `"other"` contributes no
emails when scanning `"user"`, despite carrying addresses. -/
theorem commit_harvest_gated_by_login_witness :
    commitOtherAccount.author = some { login := "other" }
    ∧ lowerStr "other" ≠ lowerStr "user"
    ∧ commitOtherAccount.sha ∉ ([] : List String)
    ∧ processCommits "user" [commitOtherAccount] [] [] =
        processCommits "user" [] ["y"] [] :=
  ⟨rfl, by decide, by decide,
   commit_harvest_gated_by_login.1 "user" commitOtherAccount [] [] []
     { login := "other" } rfl (by decide) (by decide)⟩

/-- Processing a page whose item names are fresh and pairwise distinct
consumes every item and reports `continueLoop = true`. -/
theorem processRepoItems_clean (items : List RawRepo) :
    ∀ (seen : List String) (acc : List RepoEntry),
    (∀ r ∈ items, r.name ∉ seen) → (items.map RawRepo.name).Nodup →
    processRepoItems items seen acc =
      ((items.map RawRepo.name).reverse ++ seen,
       acc ++ items.map (fun r => Repository r.name r.fork), true) := by
  induction items with
  | nil => intro seen acc _ _; simp [processRepoItems]
  | cons r rest ih =>
    intro seen acc hseen hnodup
    have hr : r.name ∉ seen := hseen r (by simp)
    have hsplit : (∀ x ∈ rest, ¬ x.name = r.name) ∧ (rest.map RawRepo.name).Nodup := by
      simpa using hnodup
    obtain ⟨hnotin, hnd⟩ := hsplit
    simp only [processRepoItems, if_neg hr]
    rw [ih (r.name :: seen) (acc ++ [Repository r.name r.fork]) ?_ hnd]
    · simp
    · intro x hx
      simp only [List.mem_cons]
      push_neg
      exact ⟨hnotin x hx, hseen x (List.mem_cons_of_mem _ hx)⟩

/-- Processing a page that contains a repeat — `pre` fresh and distinct, `d`
already seen in this run — consumes exactly the items preceding the first
repeat and reports `continueLoop = false`. -/
theorem processRepoItems_dup (pre : List RawRepo) (d : RawRepo) (post : List RawRepo) :
    ∀ (seen : List String) (acc : List RepoEntry),
    (∀ r ∈ pre, r.name ∉ seen) → (pre.map RawRepo.name).Nodup →
    (d.name ∈ seen ∨ d.name ∈ pre.map RawRepo.name) →
    processRepoItems (pre ++ d :: post) seen acc =
      ((pre.map RawRepo.name).reverse ++ seen,
       acc ++ pre.map (fun r => Repository r.name r.fork), false) := by
  induction pre with
  | nil =>
    intro seen acc _ _ hd
    have hds : d.name ∈ seen := by simpa using hd
    simp [processRepoItems, hds]
  | cons r rest ih =>
    intro seen acc hseen hnodup hd
    have hr : r.name ∉ seen := hseen r (by simp)
    have hsplit : (∀ x ∈ rest, ¬ x.name = r.name) ∧ (rest.map RawRepo.name).Nodup := by
      simpa using hnodup
    obtain ⟨hnotin, hnd⟩ := hsplit
    simp only [List.cons_append, processRepoItems, if_neg hr, List.append_eq]
    rw [ih (r.name :: seen) (acc ++ [Repository r.name r.fork]) ?_ hnd ?_]
    · simp
    · intro x hx
      simp only [List.mem_cons]
      push_neg
      exact ⟨hnotin x hx, hseen x (List.mem_cons_of_mem _ hx)⟩
    · rcases hd with h | h
      · exact Or.inl (List.mem_cons_of_mem _ h)
      · rw [List.map_cons, List.mem_cons] at h
        rcases h with h2 | h2
        · exact Or.inl (by simp [h2])
        · exact Or.inr h2

set_option maxRecDepth 100000 in
/-- C3: the repository collector starts at page 1 and, on `Items` pages,
follows the spec's state machine — a short page (fewer than 100 fresh items)
is fully consumed and the walk stops; a full page of 100 fresh items is
consumed and the walk advances to the next page; a page containing an
already-seen key is consumed only up to the items preceding the first repeat
and no further page is fetched.  Concretely, pages of 100 then 47 items give
exactly 2 fetches and 147 items, and a page 2 opening with a page-1 key gives
exactly the 100 items of page 1 (2 pages fetched, page 3 never requested). -/
theorem paginated_collector_state_machine :
    (∀ (pages : Nat → PageResult RawRepo) (fuel : Nat),
      getRepositoriesCollect pages fuel = getRepositoriesLoop pages fuel 1 [] [] 0)
    ∧ (∀ (pages : Nat → PageResult RawRepo) (fuel page n : Nat)
        (seen : List String) (acc : List RepoEntry) (items : List RawRepo),
        pages page = PageResult.items items → items.length < 100 →
        (∀ r ∈ items, r.name ∉ seen) → (items.map RawRepo.name).Nodup →
        getRepositoriesLoop pages (fuel + 1) page seen acc n =
          (acc ++ items.map (fun r => Repository r.name r.fork), n + 1))
    ∧ (∀ (pages : Nat → PageResult RawRepo) (fuel page n : Nat)
        (seen : List String) (acc : List RepoEntry) (items : List RawRepo),
        pages page = PageResult.items items → items.length = 100 →
        (∀ r ∈ items, r.name ∉ seen) → (items.map RawRepo.name).Nodup →
        getRepositoriesLoop pages (fuel + 1) page seen acc n =
          getRepositoriesLoop pages fuel (page + 1)
            ((items.map RawRepo.name).reverse ++ seen)
            (acc ++ items.map (fun r => Repository r.name r.fork)) (n + 1))
    ∧ (∀ (pages : Nat → PageResult RawRepo) (fuel page n : Nat)
        (seen : List String) (acc : List RepoEntry)
        (pre : List RawRepo) (d : RawRepo) (post : List RawRepo),
        pages page = PageResult.items (pre ++ d :: post) →
        (∀ r ∈ pre, r.name ∉ seen) → (pre.map RawRepo.name).Nodup →
        (d.name ∈ seen ∨ d.name ∈ pre.map RawRepo.name) →
        getRepositoriesLoop pages (fuel + 1) page seen acc n =
          (acc ++ pre.map (fun r => Repository r.name r.fork), n + 1))
    ∧ ((getRepositoriesCollect pagesEx1 10).1.length = 147
        ∧ (getRepositoriesCollect pagesEx1 10).2 = 2)
    ∧ getRepositoriesCollect pagesEx2 10
        = ((mkRawRepos 0 100).map (fun r => Repository r.name r.fork), 2) := by
  refine ⟨fun pages fuel => rfl, ?_, ?_, ?_, by decide, by decide⟩
  · intro pages fuel page n seen acc items hp hlen hfresh hnd
    have h100 : (items.length == 100) = false := by
      simp [Nat.ne_of_lt hlen]
    simp only [getRepositoriesLoop, hp,
      processRepoItems_clean items seen acc hfresh hnd, h100, Bool.and_false,
      Bool.false_eq_true, if_false]
  · intro pages fuel page n seen acc items hp hlen hfresh hnd
    have h100 : (items.length == 100) = true := by simp [hlen]
    simp only [getRepositoriesLoop, hp,
      processRepoItems_clean items seen acc hfresh hnd, h100, Bool.and_true,
      if_true]
  · intro pages fuel page n seen acc pre d post hp hfresh hnd hdup
    simp only [getRepositoriesLoop, hp,
      processRepoItems_dup pre d post seen acc hfresh hnd hdup, Bool.false_and,
      Bool.false_eq_true, if_false]

/-- Witness for C3: a single 1-item page, short and fresh over the seen set
`["b"]`, is fully consumed in one fetch. -/
theorem paginated_collector_state_machine_witness :
    ([({ name := "a", fork := false } : RawRepo)].length < 100
      ∧ (∀ r ∈ [({ name := "a", fork := false } : RawRepo)], r.name ∉ ["b"]))
    ∧ getRepositoriesLoop (fun _ => PageResult.items [{ name := "a", fork := false }])
        1 5 ["b"] [] 0 = ([Repository "a" false], 1) :=
  ⟨⟨by decide, by decide⟩,
   paginated_collector_state_machine.2.1 _ 0 5 0 ["b"] []
     [{ name := "a", fork := false }] rfl (by decide) (by decide) (by decide)⟩

/-- The recency tier is antitone in the push age: a more recent push never
scores lower. -/
theorem recencyScore_anti (now : Nat) (r1 r2 : Repo) (p1 p2 : Nat)
    (h1 : r1.pushed_at = some p1) (h2 : r2.pushed_at = some p2) (hp : p2 ≤ p1) :
    recencyScore now r2 ≤ recencyScore now r1 := by
  simp only [recencyScore, h1, h2]
  have hm : ((now : ℝ) - (p1 : ℝ)) / (1000 * 60 * 60 * 24 * 30)
      ≤ ((now : ℝ) - (p2 : ℝ)) / (1000 * 60 * 60 * 24 * 30) := by
    rw [div_le_div_iff_of_pos_right (by norm_num : (0:ℝ) < 1000 * 60 * 60 * 24 * 30)]
    have hc : (p2 : ℝ) ≤ (p1 : ℝ) := by exact_mod_cast hp
    linarith
  have hw : priorityWeights.recentActivity = 30 := rfl
  rw [hw]
  split_ifs
  all_goals linarith

/-- C8: the priority score is monotone in push recency — for repositories
equal in every scored attribute except the last-push timestamp, the more
recently pushed one scores at least as high — with the recency contribution
tiered at full weight under 1 month, 0.7x under 6 months, 0.3x under 12
months, and 0 otherwise (months of 30 days, measured from `now`). -/
theorem priority_monotone_in_recency :
    (∀ (now : Nat) (r : Repo) (p : Nat), r.pushed_at = some p →
      (((now : ℝ) - (p : ℝ)) / (1000 * 60 * 60 * 24 * 30) < 1 →
        recencyScore now r = priorityWeights.recentActivity)
      ∧ (¬ ((now : ℝ) - (p : ℝ)) / (1000 * 60 * 60 * 24 * 30) < 1 →
          ((now : ℝ) - (p : ℝ)) / (1000 * 60 * 60 * 24 * 30) < 6 →
          recencyScore now r = priorityWeights.recentActivity * 0.7)
      ∧ (¬ ((now : ℝ) - (p : ℝ)) / (1000 * 60 * 60 * 24 * 30) < 6 →
          ((now : ℝ) - (p : ℝ)) / (1000 * 60 * 60 * 24 * 30) < 12 →
          recencyScore now r = priorityWeights.recentActivity * 0.3)
      ∧ (¬ ((now : ℝ) - (p : ℝ)) / (1000 * 60 * 60 * 24 * 30) < 12 →
          recencyScore now r = 0))
    ∧ (∀ (now : Nat) (r1 r2 : Repo) (p1 p2 : Nat),
        r1.pushed_at = some p1 → r2.pushed_at = some p2 → p2 ≤ p1 →
        r1.fork = r2.fork → r1.archived = r2.archived →
        r1.stargazers_count = r2.stargazers_count →
        r1.has_issues = r2.has_issues → r1.description = r2.description →
        calculateRepoPriority now r2 ≤ calculateRepoPriority now r1) := by
  constructor
  · intro now r p h
    refine ⟨fun ha => ?_, fun ha hb => ?_, fun hb hc => ?_, fun hc => ?_⟩
    · simp [recencyScore, h, ha]
    · simp [recencyScore, h, ha, hb]
    · have ha : ¬ ((now : ℝ) - (p : ℝ)) / (1000 * 60 * 60 * 24 * 30) < 1 := by
        intro hcon; exact hb (by linarith)
      simp [recencyScore, h, ha, hb, hc]
    · have hb : ¬ ((now : ℝ) - (p : ℝ)) / (1000 * 60 * 60 * 24 * 30) < 6 := by
        intro hcon; exact hc (by linarith)
      have ha : ¬ ((now : ℝ) - (p : ℝ)) / (1000 * 60 * 60 * 24 * 30) < 1 := by
        intro hcon; exact hb (by linarith)
      simp [recencyScore, h, ha, hb, hc]
  · intro now r1 r2 p1 p2 h1 h2 hp hf ha hs hi hd
    have e1 : hasDescription r1 = hasDescription r2 := by
      simp [hasDescription, hd]
    have e2 : starScore r1 = starScore r2 := by
      simp [starScore, hs]
    have hr := recencyScore_anti now r1 r2 p1 p2 h1 h2 hp
    simp only [calculateRepoPriority]
    rw [e1, e2, hf, ha, hi]
    linarith

/-- Witness for C8: two repositories identical except for `pushed_at`
(100 ms vs 50 ms) compare as the claim requires at `now = 200` ms. -/
theorem priority_monotone_in_recency_witness :
    repoRecent.pushed_at = some 100 ∧ repoStale.pushed_at = some 50
    ∧ calculateRepoPriority 200 repoStale ≤ calculateRepoPriority 200 repoRecent :=
  ⟨rfl, rfl,
   priority_monotone_in_recency.2 200 repoRecent repoStale 100 50
     rfl rfl (by decide) rfl rfl rfl rfl rfl⟩

/-- The priority comparator is transitive. -/
theorem repoLe_trans (now : Nat) : ∀ (a b c : Repo),
    repoLe now a b = true → repoLe now b c = true → repoLe now a c = true := by
  intro a b c hab hbc
  simp only [repoLe, decide_eq_true_eq] at *
  exact le_trans hbc hab

/-- The priority comparator is total. -/
theorem repoLe_total (now : Nat) : ∀ (a b : Repo),
    (repoLe now a b || repoLe now b a) = true := by
  intro a b
  simp only [repoLe, Bool.or_eq_true, decide_eq_true_eq]
  exact le_total _ _

/-- The priority sort is descending: every element dominates all later ones. -/
theorem sortReposByPriority_pairwise (now : Nat) (l : List Repo) :
    (sortReposByPriority now l).Pairwise
      (fun a b => calculateRepoPriority now b ≤ calculateRepoPriority now a) := by
  have h := List.sorted_mergeSort (repoLe_trans now) (repoLe_total now) l
  refine h.imp ?_
  intro a b hab
  simpa [repoLe, decide_eq_true_eq] using hab

/-- Membership is preserved by the priority sort. -/
theorem mem_sortReposByPriority (now : Nat) (l : List Repo) (x : Repo) :
    x ∈ sortReposByPriority now l ↔ x ∈ l :=
  (List.mergeSort_perm l (repoLe now)).mem_iff

/-- In a pairwise-ordered list, every kept element of a prefix dominates every
dropped element beyond it. -/
theorem pairwise_take_drop {R : Repo → Repo → Prop} (l : List Repo)
    (hpw : l.Pairwise R) (t : Nat) :
    ∀ x ∈ l.take t, ∀ y ∈ l.drop (l.take t).length, R x y := by
  intro x hx y hy
  have hdrop : l.drop (l.take t).length = l.drop t := by
    rw [List.length_take]
    rcases le_total t l.length with h | h
    · rw [min_eq_left h]
    · rw [min_eq_right h, List.drop_length, eq_comm]
      exact List.drop_eq_nil_of_le h
  rw [hdrop] at hy
  have hpw2 : (l.take t ++ l.drop t).Pairwise R := by
    rw [List.take_append_drop]; exact hpw
  exact (List.pairwise_append.mp hpw2).2.2 x hx y hy

/-- C6 (amended): `filterRepos` applies the hard exclusion predicates, then
priority-sorts the survivors, then truncates; whenever `maxCount` is nonzero
the output has at most `maxCount` elements, every output element comes from
the input and satisfies all hard predicates, and every output element scores
at least as high as every survivor the truncation dropped.  (The source skips
truncation entirely when `maxCount` is 0, because `0` is falsy — see the
counterexample.) -/
theorem filterRepos_spec :
    ∀ (opts : FilterOptions) (now : Nat) (repos : List Repo),
    (∀ m, opts.maxRepos = some m → 0 < m → (filterRepos opts now repos).length ≤ m)
    ∧ (∀ r ∈ filterRepos opts now repos,
        r ∈ repos ∧ repoPassesFilter opts now r = true)
    ∧ (∀ x ∈ filterRepos opts now repos,
        ∀ y ∈ (sortReposByPriority now
            (repos.filter (repoPassesFilter opts now))).drop
            (filterRepos opts now repos).length,
          calculateRepoPriority now y ≤ calculateRepoPriority now x) := by
  intro opts now repos
  have hout : ∃ t, filterRepos opts now repos =
      (sortReposByPriority now (repos.filter (repoPassesFilter opts now))).take t := by
    cases hm : opts.maxRepos with
    | none =>
      refine ⟨(sortReposByPriority now
        (repos.filter (repoPassesFilter opts now))).length, ?_⟩
      simp only [filterRepos, hm]
      exact (List.take_length _).symm
    | some m =>
      by_cases hc : (m != 0 &&
          decide ((sortReposByPriority now
            (repos.filter (repoPassesFilter opts now))).length > m)) = true
      · refine ⟨m, ?_⟩
        simp only [filterRepos, hm]
        rw [if_pos hc]
      · refine ⟨(sortReposByPriority now
          (repos.filter (repoPassesFilter opts now))).length, ?_⟩
        simp only [filterRepos, hm]
        rw [if_neg hc]
        exact (List.take_length _).symm
  obtain ⟨t, ht⟩ := hout
  refine ⟨?_, ?_, ?_⟩
  · intro m hm hpos
    simp only [filterRepos, hm]
    by_cases hgt : (sortReposByPriority now
        (repos.filter (repoPassesFilter opts now))).length > m
    · have hc : (m != 0 && decide ((sortReposByPriority now
          (repos.filter (repoPassesFilter opts now))).length > m)) = true := by
        simp [hgt]
        omega
      rw [if_pos hc, List.length_take]
      exact min_le_left _ _
    · have hc : (m != 0 && decide ((sortReposByPriority now
          (repos.filter (repoPassesFilter opts now))).length > m)) = false := by
        simp [hgt]
      rw [if_neg (by simp [hc])]
      exact Nat.le_of_not_lt hgt
  · intro r hr
    rw [ht] at hr
    have hr2 : r ∈ sortReposByPriority now
        (repos.filter (repoPassesFilter opts now)) := List.mem_of_mem_take hr
    have hr3 : r ∈ repos.filter (repoPassesFilter opts now) :=
      (mem_sortReposByPriority now _ r).mp hr2
    exact ⟨(List.mem_filter.mp hr3).1, (List.mem_filter.mp hr3).2⟩
  · intro x hx y hy
    have hpw := sortReposByPriority_pairwise now
      (repos.filter (repoPassesFilter opts now))
    rw [ht] at hx hy
    exact pairwise_take_drop _ hpw t x hx y hy

/-- Counterexample to C6 as stated: with `maxCount = 0` the source's truthiness
guard skips truncation, so one surviving repository yields an output longer
than `maxCount`. -/
theorem filterRepos_cap_zero :
    optsCap0.maxRepos = some 0
    ∧ 0 < (filterRepos optsCap0 0 [repoPlain]).length := by
  refine ⟨rfl, ?_⟩
  have hfil : [repoPlain].filter (repoPassesFilter optsCap0 0) = [repoPlain] := by
    decide
  have hm : optsCap0.maxRepos = some 0 := rfl
  simp only [filterRepos, hm, hfil, sortReposByPriority, List.mergeSort_singleton]
  simp

/-- Witness for the amended C6: a nonzero cap of 1 over two surviving
repositories bounds the output length by 1. -/
theorem filterRepos_spec_witness :
    optsCap1.maxRepos = some 1
    ∧ (filterRepos optsCap1 0 [repoPlain, repoPlain2]).length ≤ 1 :=
  ⟨rfl, (filterRepos_spec optsCap1 0 [repoPlain, repoPlain2]).1 1 rfl (by decide)⟩
